import Mathlib

/-!
Verification of the repository-statistics server (`config.py`, `main.py`,
`utils.py`).

The Python code is shallowly embedded as executable Lean definitions:

* URL handling (`_repo_parts`, the `repo_name` computation in `get_stats`,
  `_cache_path_for`) is modelled character-exactly on `List Char`, with
  Python's `str.replace`, `str.strip`, `str.split` and `pathlib`'s `suffix`
  reimplemented faithfully.
* The filesystem walked by `os.walk` is an inductive tree `FsEntry`; a file
  carries its name, its byte size (`st_size`) and its list of text lines.
  `os.walk`'s top-down traversal with `dirs.remove(".git")` pruning is the
  structural recursion of the walk functions, which skip the first
  subdirectory named `.git` of every visited directory.
* The two external effects of `get_stats` — the GitHub commits API and the
  working copy produced by `git clone`/`git fetch` — are abstracted by an
  environment `Env`: the API's answer (`none` for a non-200 or malformed
  response) and the resulting tree and local `HEAD` commit.  `get_stats`
  additionally returns an `Effects` record counting the API requests and
  clone/fetch invocations it performed, so "makes no network call" is a
  provable statement.
* The JSON cache directory is a map from file path to stored dictionary;
  JSON (de)serialisation of a string/int dictionary is the identity and is
  modelled as such.  Stats dictionaries are ordered association lists over
  `JVal` (string or int values), so the exact keys written by the code —
  including the Russian `"Коммит"` versus the `"commit"` looked up by the
  cache-hit test — are preserved.
* The Flask handler `get_stats_image` is a function from the optional
  `repo` query parameter (and the environment) to a response record; the
  MD5 hex digest used only inside the `Content-Disposition` filename is an
  abstract parameter of the handler.
-/

/-! ## Python string primitives on `List Char` -/

/-- The pattern removed by `.replace(".git", "")`. -/
def gitPat : List Char := ['.', 'g', 'i', 't']

/-- Python's `s.replace(".git", "")`: scan left to right, removing every
occurrence of `".git"` (not only a trailing suffix). -/
def removeGit : List Char → List Char
  | '.' :: 'g' :: 'i' :: 't' :: rest => removeGit rest
  | c :: rest => c :: removeGit rest
  | [] => []

/-- `".git" in s` as a substring test: some position of `s` starts with
`".git"`. -/
def containsGit (l : List Char) : Bool :=
  match l with
  | [] => false
  | c :: rest => gitPat.isPrefixOf (c :: rest) || containsGit rest

/-- Python's `s.split("/")`: never returns an empty list; `"".split("/")`
is `[""]`. -/
def splitSlash (l : List Char) : List (List Char) :=
  match l with
  | [] => [[]]
  | c :: rest =>
    if c = '/' then [] :: splitSlash rest
    else
      match splitSlash rest with
      | s :: ss => (c :: s) :: ss
      | [] => [[c]]

/-- Inverse of `splitSlash`: interpose `'/'` between the segments. -/
def joinSlash (ss : List (List Char)) : List Char :=
  match ss with
  | [] => []
  | [s] => s
  | s :: rest => s ++ '/' :: joinSlash rest

/-- Python's `s.lstrip("/")`. -/
def lstripSlash (l : List Char) : List Char := l.dropWhile (fun c => c = '/')

/-- Python's `s.rstrip("/")`. -/
def rstripSlash (l : List Char) : List Char :=
  (l.reverse.dropWhile (fun c => c = '/')).reverse

/-- Python's `s.strip("/")`. -/
def stripSlash (l : List Char) : List Char := rstripSlash (lstripSlash l)

/-! ## URL parsing (`_repo_parts`, `repo_name`, `_cache_path_for`) -/

/-- The literal the code requires at the start of a supported URL. -/
def githubStart : List Char := ("https://github.com/").data

/-- The `path` component `urlparse` yields for a URL that begins with
`https://github.com/`: the `/`-initial remainder after the host, cut at the
first `'?'` or `'#'`. -/
def urlPath (url : List Char) : List Char :=
  '/' :: (url.drop githubStart.length).takeWhile (fun c => ¬ (c = '?' ∨ c = '#'))

/-- `_repo_parts` from `utils.py`: reject URLs not starting with
`https://github.com/`; otherwise
`urlparse(url).path.strip("/").replace(".git", "").split("/")`, requiring at
least two segments and returning the first two. -/
def repo_parts (url : List Char) : Option (List Char × List Char) :=
  if githubStart.isPrefixOf url then
    match splitSlash (removeGit (stripSlash (urlPath url))) with
    | a :: b :: _ => some (a, b)
    | _ => none
  else none

/-- The local clone directory name computed in `get_stats`:
`repo_url.rstrip("/").split("/")[-1].replace(".git", "")`. -/
def repoName (url : List Char) : List Char :=
  removeGit ((splitSlash (rstripSlash url)).getLastD [])

/-- `_cache_path_for`: `repo_url.replace("/", "_").replace(":", "_")` plus
the `.json` extension (the cache directory itself is the `Cache` map). -/
def cache_path_for (url : List Char) : List Char :=
  (url.map (fun c => if c = '/' then '_' else c)).map (fun c => if c = ':' then '_' else c)
    ++ (".json").data

/-- The host part of `githubStart` without its trailing slash. -/
def ghHost : List Char := ("https://github.com").data

/-- A repository URL built from its two actual path segments: owner and
name, as they stand in the URL. -/
def mkUrl (o n : List Char) : List Char := githubStart ++ o ++ '/' :: n

/-! ## `pathlib.Path(f).suffix` and code-file classification -/

/-- Index of the last `'.'` in a name, as `str.rfind('.')` computes it. -/
def lastDotIdx (l : List Char) : Option Nat :=
  match l with
  | [] => none
  | c :: rest =>
    match lastDotIdx rest with
    | some i => some (i + 1)
    | none => if c = '.' then some 0 else none

/-- CPython's `PurePath.suffix` on a bare filename: `name[i:]` for the last
dot index `i` when `0 < i < len(name) - 1`, else the empty string. -/
def pathSuffix (name : String) : String :=
  match lastDotIdx name.data with
  | some i => if 0 < i ∧ i < name.data.length - 1 then String.mk (name.data.drop i) else ""
  | none => ""

/-- `Path(f).suffix.lower()` (the filenames at stake are ASCII). -/
def suffixLower (name : String) : String :=
  String.mk ((pathSuffix name).data.map Char.toLower)

/-- `DEFAULT_CODE_EXTS` from `utils.py` (a set; only membership is used). -/
def DEFAULT_CODE_EXTS : List String :=
  [".py", ".js", ".ts", ".go", ".rs", ".java", ".c", ".cpp", ".h", ".hpp",
   ".md", ".html", ".css", ".rb", ".php"]

/-- `Path(f).suffix.lower() in code_exts`. -/
def isCode (exts : List String) (name : String) : Bool :=
  decide (suffixLower name ∈ exts)

/-- `code_exts or DEFAULT_CODE_EXTS`: Python's `or` falls back to the
default when the argument is `None` or an empty (falsy) set. -/
def extsOrDefault (o : Option (List String)) : List String :=
  match o with
  | none => DEFAULT_CODE_EXTS
  | some l => if l.isEmpty then DEFAULT_CODE_EXTS else l

/-! ## The working copy and the `os.walk` metrics -/

/-- A filesystem entry: a file with its name, byte size (`st_size`) and text
lines, or a directory with its entries. -/
inductive FsEntry where
  | file (name : String) (size : Nat) (lines : List String)
  | dir (name : String) (entries : List FsEntry)

/-- `_file_counts`' walk over one directory's entries.  `gitSkipped` records
whether the visited directory's single `dirs.remove(".git")` has fired:
the first subdirectory named `.git` is not descended into; every
subdirectory a walk does enter starts with its own fresh flag. -/
def fileCountsWalk (exts : List String) (gitSkipped : Bool) :
    List FsEntry → Nat × Nat
  | [] => (0, 0)
  | .file n _ _ :: rest =>
    let r := fileCountsWalk exts gitSkipped rest
    (r.1 + 1, r.2 + (if isCode exts n then 1 else 0))
  | .dir n es :: rest =>
    if n = ".git" ∧ gitSkipped = false then fileCountsWalk exts true rest
    else
      let sub := fileCountsWalk exts false es
      let r := fileCountsWalk exts gitSkipped rest
      (sub.1 + r.1, sub.2 + r.2)

/-- `_file_counts(path, code_exts)`: `(total files, code files)` over the
working copy, pruning `.git`. -/
def file_counts (exts : List String) (tree : List FsEntry) : Nat × Nat :=
  fileCountsWalk exts false tree

/-- `_lines_of_code`'s walk: sum of the line counts of code files. -/
def linesWalk (exts : List String) (gitSkipped : Bool) : List FsEntry → Nat
  | [] => 0
  | .file n _ ls :: rest =>
    (if isCode exts n then ls.length else 0) + linesWalk exts gitSkipped rest
  | .dir n es :: rest =>
    if n = ".git" ∧ gitSkipped = false then linesWalk exts true rest
    else linesWalk exts false es + linesWalk exts gitSkipped rest

/-- `_lines_of_code(path, code_exts)`. -/
def lines_of_code (exts : List String) (tree : List FsEntry) : Nat :=
  linesWalk exts false tree

/-- `_repo_size_bytes`' walk: sum of `st_size` over all files, pruning
`.git`. -/
def sizeWalk (gitSkipped : Bool) : List FsEntry → Nat
  | [] => 0
  | .file _ sz _ :: rest => sz + sizeWalk gitSkipped rest
  | .dir n es :: rest =>
    if n = ".git" ∧ gitSkipped = false then sizeWalk true rest
    else sizeWalk false es + sizeWalk gitSkipped rest

/-- `_repo_size_bytes(path)`. -/
def repo_size_bytes (tree : List FsEntry) : Nat :=
  sizeWalk false tree

/-! ## Stats dictionaries and the JSON cache -/

/-- A JSON value as stored in a stats dictionary: a string or an integer. -/
inductive JVal where
  | s (v : String)
  | n (v : Nat)
deriving DecidableEq

/-- A Python dict of string/int values, with insertion order preserved
(JSON round-trips such a dict unchanged). -/
abbrev StatsDict := List (String × JVal)

/-- Python's `d.get(k)`. -/
def dictGet (d : StatsDict) (k : String) : Option JVal :=
  match d with
  | [] => none
  | (k', v) :: rest => if k' = k then some v else dictGet rest k

/-- The cache directory: the stored dictionary, if any, under each file
path.  Serialisation of a string/int dict to JSON text and back is the
identity and is elided. -/
abbrev Cache := List Char → Option StatsDict

/-- The empty cache directory. -/
def emptyCache : Cache := fun _ => none

/-- `_load_cached_stats(repo_url, cache_dir)`. -/
def load_cached_stats (url : List Char) (cache : Cache) : Option StatsDict :=
  cache (cache_path_for url)

/-- `_save_cached_stats(repo_url, cache_dir, stats)`: write the serialised
dict at the URL's cache path. -/
def save_cached_stats (url : List Char) (cache : Cache) (stats : StatsDict) : Cache :=
  fun p => if p = cache_path_for url then some stats else cache p

/-! ## `get_stats` with its external effects made explicit -/

/-- What the outside world answers during one `get_stats` call: the commits
API's latest sha (`none` models a non-200 response or malformed payload),
and the local working copy `_clone_or_fetch` leaves behind — its `HEAD`
commit (`_local_commit`) and its file tree. -/
structure Env where
  remote : Option String
  localSha : String
  tree : List FsEntry

/-- Counts of the effectful operations one `get_stats` call performed. -/
structure Effects where
  apiCalls : Nat
  cloneFetchCalls : Nat
  cacheWrites : Nat
deriving DecidableEq

/-- No effectful operation at all. -/
def noEffects : Effects := ⟨0, 0, 0⟩

/-- `_get_remote_commit`: `None` without a request when `_repo_parts`
fails, otherwise one API request whose outcome the environment supplies.
The second component counts the requests made. -/
def get_remote_commit (url : List Char) (env : Env) : Option String × Nat :=
  match repo_parts url with
  | none => (none, 0)
  | some _ => (env.remote, 1)

/-- The `if cached and cached.get("commit") == remote_sha` test: a present,
truthy (non-empty) dict whose `"commit"` entry equals the remote sha. -/
def cacheHit (cached : Option StatsDict) (sha : String) : Bool :=
  match cached with
  | none => false
  | some d => !d.isEmpty && decide (dictGet d "commit" = some (JVal.s sha))

/-- The stats dict `get_stats` builds on a recomputation, key for key. -/
def mkStats (sha : String) (url : List Char) (total code size lines : Nat) : StatsDict :=
  [("Коммит", JVal.s sha),
   ("Репозиторий", JVal.s (String.mk url)),
   ("Всего файлов", JVal.n total),
   ("Файлов с кодом", JVal.n code),
   ("Байт", JVal.n size),
   ("Строк кода", JVal.n lines)]

/-- `get_stats(repo_url, config, code_exts)` from `utils.py`, returning the
result, the cache directory afterwards, and the effect counts. -/
def get_stats (url : List Char) (env : Env) (cache : Cache)
    (extsArg : Option (List String)) : Option StatsDict × Cache × Effects :=
  let code_exts := extsOrDefault extsArg
  match repo_parts url with
  | none => (none, cache, noEffects)
  | some _ =>
    let _repo_name := repoName url
    match get_remote_commit url env with
    | (none, api) => (none, cache, ⟨api, 0, 0⟩)
    | (some sha, api) =>
      let cached := load_cached_stats url cache
      if cacheHit cached sha then (cached, cache, ⟨api, 0, 0⟩)
      else
        let _local_sha := env.localSha
        let fc := file_counts code_exts env.tree
        let lines := lines_of_code code_exts env.tree
        let size := repo_size_bytes env.tree
        let stats := mkStats sha url fc.1 fc.2 size lines
        (some stats, save_cached_stats url cache stats, ⟨api, 1, 1⟩)

/-! ## The Flask handler `get_stats_image` -/

/-- The body of a response: a JSON error object or the rendered PNG. -/
inductive RespBody where
  | errorJson (msg : String)
  | png
deriving DecidableEq

/-- The parts of the HTTP response the handler sets. -/
structure Resp where
  status : Nat
  contentType : String
  disposition : Option String
  body : RespBody
deriving DecidableEq

/-- Python's falsiness test on the handler's `stats` value: `None` or an
empty dict. -/
def statsTruthy (stats : Option StatsDict) : Bool :=
  match stats with
  | none => false
  | some d => !d.isEmpty

/-- The `/repo` route handler from `main.py`.  `repoParam` is
`request.args.get('repo')` (`none` when absent; the empty string is falsy
too); `md5hex` abstracts `hashlib.md5(repo.encode()).hexdigest()`. -/
def get_stats_image (repoParam : Option String) (env : Env) (cache : Cache)
    (md5hex : String → String) : Resp :=
  match repoParam with
  | none => ⟨400, "application/json", none, .errorJson "Не указан репозиторий"⟩
  | some repo =>
    if repo = "" then ⟨400, "application/json", none, .errorJson "Не указан репозиторий"⟩
    else
      let stats := (get_stats repo.data env cache none).1
      if statsTruthy stats then
        ⟨200, "image/png",
         some ("inline; filename=stats_" ++ (md5hex repo).take 8 ++ ".png"), .png⟩
      else ⟨500, "application/json", none, .errorJson "Не удалось собрать статистику"⟩

/-! ## A concrete cache scenario -/

/-- A concrete supported repository URL. -/
def urlOR : List Char := ("https://github.com/o/r").data

/-- A concrete environment: the commits API reports sha `"abc"`, the local
clone's `HEAD` is some other sha, the working copy is empty. -/
def envOR : Env := ⟨some "abc", "deadbeef", []⟩

/-! ## Helper lemmas about the walk functions -/

/-- In every walk, the code-file count never exceeds the file count. -/
theorem fileCountsWalk_snd_le_fst (exts : List String) (g : Bool) (l : List FsEntry) :
    (fileCountsWalk exts g l).2 ≤ (fileCountsWalk exts g l).1 := by
  induction g, l using fileCountsWalk.induct exts with
  | case1 g => simp [fileCountsWalk]
  | case2 g n sz ls rest ih =>
    simp only [fileCountsWalk]
    split <;> omega
  | case3 g n es rest hcond ih =>
    simp only [fileCountsWalk, if_pos hcond]
    exact ih
  | case4 g n es rest hcond ih1 ih2 =>
    simp only [fileCountsWalk, if_neg hcond]
    omega

/-! ## C4, C5, C7, C9 -/

/-- C4: for a URL outside the supported host (`_repo_parts` fails),
`get_stats` returns `None` having made no remote-API request and no
clone/fetch call, and leaves the cache untouched. -/
theorem get_stats_unsupported_no_network (url : List Char) (env : Env)
    (cache : Cache) (extsArg : Option (List String))
    (h : repo_parts url = none) :
    get_stats url env cache extsArg = (none, cache, noEffects) := by
  unfold get_stats
  rw [h]

/-- Witness for C4 at the concrete URL `http://example.com`. -/
theorem get_stats_unsupported_no_network_witness :
    repo_parts ("http://example.com").data = none
    ∧ get_stats ("http://example.com").data (Env.mk none "" []) emptyCache none
        = (none, emptyCache, noEffects) :=
  ⟨by decide, get_stats_unsupported_no_network _ _ _ _ (by decide)⟩

/-- C5: in a working copy with `a.py` (3 lines), `b.txt` (5 lines) and a
`.git/` subdirectory of arbitrary contents, the walk counts both files in
the total, only `a.py` as a code file, only `a.py`'s 3 lines, and no
`.git` content in any metric (the results do not depend on `g`). -/
theorem counts_exclude_git_dir (la lb : List String) (sa sb : Nat) (g : List FsEntry)
    (ha : la.length = 3) (_hb : lb.length = 5) :
    file_counts DEFAULT_CODE_EXTS
        [FsEntry.file "a.py" sa la, FsEntry.file "b.txt" sb lb, FsEntry.dir ".git" g]
      = (2, 1)
    ∧ lines_of_code DEFAULT_CODE_EXTS
        [FsEntry.file "a.py" sa la, FsEntry.file "b.txt" sb lb, FsEntry.dir ".git" g]
      = 3
    ∧ repo_size_bytes
        [FsEntry.file "a.py" sa la, FsEntry.file "b.txt" sb lb, FsEntry.dir ".git" g]
      = sa + sb := by
  have h1 : isCode DEFAULT_CODE_EXTS "a.py" = true := by decide
  have h2 : isCode DEFAULT_CODE_EXTS "b.txt" = false := by decide
  refine ⟨?_, ?_, ?_⟩ <;>
    simp [file_counts, fileCountsWalk, lines_of_code, linesWalk,
      repo_size_bytes, sizeWalk, h1, h2, ha]

/-- Witness for C5 with concrete line lists, sizes and `.git` contents. -/
theorem counts_exclude_git_dir_witness :
    (["l1", "l2", "l3"] : List String).length = 3
    ∧ (["m1", "m2", "m3", "m4", "m5"] : List String).length = 5
    ∧ (file_counts DEFAULT_CODE_EXTS
        [FsEntry.file "a.py" 10 ["l1", "l2", "l3"],
         FsEntry.file "b.txt" 20 ["m1", "m2", "m3", "m4", "m5"],
         FsEntry.dir ".git" [FsEntry.file "HEAD" 7 ["ref"]]] = (2, 1)
      ∧ lines_of_code DEFAULT_CODE_EXTS
        [FsEntry.file "a.py" 10 ["l1", "l2", "l3"],
         FsEntry.file "b.txt" 20 ["m1", "m2", "m3", "m4", "m5"],
         FsEntry.dir ".git" [FsEntry.file "HEAD" 7 ["ref"]]] = 3
      ∧ repo_size_bytes
        [FsEntry.file "a.py" 10 ["l1", "l2", "l3"],
         FsEntry.file "b.txt" 20 ["m1", "m2", "m3", "m4", "m5"],
         FsEntry.dir ".git" [FsEntry.file "HEAD" 7 ["ref"]]] = 10 + 20) :=
  ⟨by decide, by decide, counts_exclude_git_dir _ _ _ _ _ (by decide) (by decide)⟩

/-- C7: saving a stats dictionary to the cache and loading it back for the
same URL yields the identical dictionary. -/
theorem cache_round_trip (url : List Char) (cache : Cache) (stats : StatsDict) :
    load_cached_stats url (save_cached_stats url cache stats) = some stats := by
  simp [load_cached_stats, save_cached_stats]

/-- C9: a file is counted as a code file — for the code-file count and for
the line count — exactly when its extension, lowercased, is in the
configured extension set; in particular `A.PY` lowercases to `.py` and is
classified as code. -/
theorem code_classification_case_insensitive (exts : List String) (name : String)
    (sz : Nat) (ls : List String) :
    (file_counts exts [FsEntry.file name sz ls]
        = (1, if suffixLower name ∈ exts then 1 else 0)
      ∧ lines_of_code exts [FsEntry.file name sz ls]
        = (if suffixLower name ∈ exts then ls.length else 0))
    ∧ suffixLower "A.PY" = ".py"
    ∧ (file_counts DEFAULT_CODE_EXTS [FsEntry.file "A.PY" 0 []]).2 = 1 := by
  refine ⟨⟨?_, ?_⟩, by decide, ?_⟩
  · by_cases h : suffixLower name ∈ exts <;>
      simp [file_counts, fileCountsWalk, isCode, h]
  · by_cases h : suffixLower name ∈ exts <;>
      simp [lines_of_code, linesWalk, isCode, h]
  · have h : isCode DEFAULT_CODE_EXTS "A.PY" = true := by decide
    simp [file_counts, fileCountsWalk, h]

/-! ## Helper lemmas about `get_stats` -/

/-- When `_repo_parts` succeeds, the API answers `sha` and the cache-hit
test fails, `get_stats` recomputes: one API request, one clone/fetch, the
stats dict keyed by the remote sha, and one cache write of that dict. -/
theorem get_stats_recompute (url : List Char) (env : Env) (cache : Cache)
    (extsArg : Option (List String)) (sha : String)
    (hp : repo_parts url ≠ none) (hr : env.remote = some sha)
    (hmiss : cacheHit (load_cached_stats url cache) sha = false) :
    get_stats url env cache extsArg =
      (some (mkStats sha url
          (file_counts (extsOrDefault extsArg) env.tree).1
          (file_counts (extsOrDefault extsArg) env.tree).2
          (repo_size_bytes env.tree)
          (lines_of_code (extsOrDefault extsArg) env.tree)),
       save_cached_stats url cache (mkStats sha url
          (file_counts (extsOrDefault extsArg) env.tree).1
          (file_counts (extsOrDefault extsArg) env.tree).2
          (repo_size_bytes env.tree)
          (lines_of_code (extsOrDefault extsArg) env.tree)),
       ⟨1, 1, 1⟩) := by
  obtain ⟨p, hp2⟩ := Option.ne_none_iff_exists'.mp hp
  unfold get_stats get_remote_commit
  rw [hp2, hr]
  simp [hmiss]

/-- `get_stats` never reads the locally cloned commit id: its entire result
is unchanged under any change of `Env.localSha`. -/
theorem get_stats_local_sha_unused (url : List Char) (r : Option String)
    (x y : String) (t : List FsEntry) (cache : Cache)
    (extsArg : Option (List String)) :
    get_stats url (Env.mk r x t) cache extsArg
      = get_stats url (Env.mk r y t) cache extsArg := by
  unfold get_stats get_remote_commit
  cases repo_parts url <;> cases r <;> simp

/-! ## C1, C2, C6 -/

/-- C1: whenever `get_stats` recomputes, the stats it returns carry the
remote commit id reported by the hosting API under `"Коммит"`, and the
locally cloned commit id plays no role: neither the cache decision nor any
part of the result changes when `Env.localSha` changes. -/
theorem get_stats_commit_remote_local_unused (url : List Char) (env : Env)
    (cache : Cache) (extsArg : Option (List String)) (sha : String)
    (hp : repo_parts url ≠ none) (hr : env.remote = some sha)
    (hmiss : cacheHit (load_cached_stats url cache) sha = false) :
    (∃ d, (get_stats url env cache extsArg).1 = some d
        ∧ dictGet d "Коммит" = some (JVal.s sha))
    ∧ (∀ (x y : String) (r2 : Option String) (t : List FsEntry)
          (cache2 : Cache) (extsArg2 : Option (List String)),
        get_stats url (Env.mk r2 x t) cache2 extsArg2
          = get_stats url (Env.mk r2 y t) cache2 extsArg2) := by
  constructor
  · rw [get_stats_recompute url env cache extsArg sha hp hr hmiss]
    exact ⟨_, rfl, by simp [mkStats, dictGet]⟩
  · intro x y r2 t cache2 extsArg2
    exact get_stats_local_sha_unused url r2 x y t cache2 extsArg2

/-- Witness for C1 at a concrete supported URL with an empty cache. -/
theorem get_stats_commit_remote_local_unused_witness :
    repo_parts urlOR ≠ none
    ∧ envOR.remote = some "abc"
    ∧ cacheHit (load_cached_stats urlOR emptyCache) "abc" = false
    ∧ ((∃ d, (get_stats urlOR envOR emptyCache none).1 = some d
          ∧ dictGet d "Коммит" = some (JVal.s "abc"))
      ∧ (∀ (x y : String) (r2 : Option String) (t : List FsEntry)
            (cache2 : Cache) (extsArg2 : Option (List String)),
          get_stats urlOR (Env.mk r2 x t) cache2 extsArg2
            = get_stats urlOR (Env.mk r2 y t) cache2 extsArg2)) :=
  ⟨by decide, rfl, by decide,
   get_stats_commit_remote_local_unused urlOR envOR emptyCache none "abc"
     (by decide) rfl (by decide)⟩

/-- C2 (defect in the code): `_save_cached_stats` stores the commit id
under the key `"Коммит"`, but the cache-hit test reads `cached.get("commit")`.
A cache entry written by the code itself, whose stored commit id equals the
current remote commit id, is still treated as a miss: the second identical
call performs a clone/fetch, recomputes and rewrites the cache instead of
returning the entry without work. -/
theorem get_stats_cache_hit_never_fires :
    ∃ d, (get_stats urlOR envOR emptyCache none).1 = some d
      ∧ dictGet d "Коммит" = some (JVal.s "abc")
      ∧ load_cached_stats urlOR (get_stats urlOR envOR emptyCache none).2.1 = some d
      ∧ (get_stats urlOR envOR (get_stats urlOR envOR emptyCache none).2.1 none).2.2
          = Effects.mk 1 1 1 := by
  have e0 : file_counts (extsOrDefault none) envOR.tree = (0, 0) := by
    simp [envOR, file_counts, fileCountsWalk]
  have e1 : repo_size_bytes envOR.tree = 0 := by
    simp [envOR, repo_size_bytes, sizeWalk]
  have e2 : lines_of_code (extsOrDefault none) envOR.tree = 0 := by
    simp [envOR, lines_of_code, linesWalk]
  have h1 := get_stats_recompute urlOR envOR emptyCache none "abc"
    (by decide) rfl (by decide)
  rw [e0, e1, e2] at h1
  refine ⟨mkStats "abc" urlOR 0 0 0 0, by rw [h1], by simp [mkStats, dictGet], ?_, ?_⟩
  · rw [h1]
    exact cache_round_trip urlOR emptyCache _
  · have hmiss2 : cacheHit
        (load_cached_stats urlOR (get_stats urlOR envOR emptyCache none).2.1) "abc"
          = false := by
      rw [h1, cache_round_trip urlOR emptyCache _]
      simp [cacheHit, mkStats, dictGet]
    have h2 := get_stats_recompute urlOR envOR
      (get_stats urlOR envOR emptyCache none).2.1 none "abc" (by decide) rfl hmiss2
    rw [h2]

/-- C6: on any recomputation from a stale or absent cache entry, the
resulting stats dict has total file count ≥ code file count and byte
size ≥ 0.  (`hwf` says the entry, if present, lacks a `"commit"` key, as
every entry `_save_cached_stats` writes does.) -/
theorem get_stats_totals_bounds (url : List Char) (env : Env) (cache : Cache)
    (extsArg : Option (List String)) (sha : String)
    (hp : repo_parts url ≠ none) (hr : env.remote = some sha)
    (_hstale : load_cached_stats url cache = none
      ∨ ∃ d, load_cached_stats url cache = some d
          ∧ dictGet d "Коммит" ≠ some (JVal.s sha))
    (hwf : ∀ d, load_cached_stats url cache = some d → dictGet d "commit" = none) :
    ∃ d total code size,
      (get_stats url env cache extsArg).1 = some d
      ∧ dictGet d "Всего файлов" = some (JVal.n total)
      ∧ dictGet d "Файлов с кодом" = some (JVal.n code)
      ∧ dictGet d "Байт" = some (JVal.n size)
      ∧ code ≤ total ∧ 0 ≤ size := by
  have hmiss : cacheHit (load_cached_stats url cache) sha = false := by
    cases h : load_cached_stats url cache with
    | none => simp [cacheHit]
    | some d => simp [cacheHit, hwf d h]
  rw [get_stats_recompute url env cache extsArg sha hp hr hmiss]
  exact ⟨mkStats sha url (file_counts (extsOrDefault extsArg) env.tree).1
      (file_counts (extsOrDefault extsArg) env.tree).2 (repo_size_bytes env.tree)
      (lines_of_code (extsOrDefault extsArg) env.tree),
    (file_counts (extsOrDefault extsArg) env.tree).1,
    (file_counts (extsOrDefault extsArg) env.tree).2,
    repo_size_bytes env.tree, rfl, by simp [mkStats, dictGet],
    by simp [mkStats, dictGet], by simp [mkStats, dictGet],
    fileCountsWalk_snd_le_fst (extsOrDefault extsArg) false env.tree, Nat.zero_le _⟩

/-- Witness for C6 at a concrete supported URL with an absent cache entry. -/
theorem get_stats_totals_bounds_witness :
    repo_parts urlOR ≠ none
    ∧ load_cached_stats urlOR emptyCache = none
    ∧ ∃ d total code size,
        (get_stats urlOR envOR emptyCache none).1 = some d
        ∧ dictGet d "Всего файлов" = some (JVal.n total)
        ∧ dictGet d "Файлов с кодом" = some (JVal.n code)
        ∧ dictGet d "Байт" = some (JVal.n size)
        ∧ code ≤ total ∧ 0 ≤ size :=
  ⟨by decide, rfl,
   get_stats_totals_bounds urlOR envOR emptyCache none "abc" (by decide) rfl
     (Or.inl rfl) (fun d h => by simp [load_cached_stats, emptyCache] at h)⟩

/-! ## Helper lemma: RemoteUnavailable -/

/-- When the URL parses but the remote API fails (non-200 or malformed
payload), `get_stats` returns `None` after its single API request, with no
clone/fetch and no cache write. -/
theorem get_stats_remote_unavailable (url : List Char) (env : Env)
    (cache : Cache) (extsArg : Option (List String))
    (hp : repo_parts url ≠ none) (hr : env.remote = none) :
    get_stats url env cache extsArg = (none, cache, ⟨1, 0, 0⟩) := by
  obtain ⟨p, hp2⟩ := Option.ne_none_iff_exists'.mp hp
  unfold get_stats get_remote_commit
  rw [hp2, hr]

/-! ## C3, C8 -/

/-- C3 counterexample: a malformed URL, with the `repo` parameter present,
yields a 500 response — not the 400 the claim asserts for `InvalidRepo`. -/
theorem handler_invalid_url_500_not_400 :
    (get_stats_image (some "http://example.com") (Env.mk none "" [])
        emptyCache (fun _ => "")).status = 500
    ∧ ¬ (get_stats_image (some "http://example.com") (Env.mk none "" [])
        emptyCache (fun _ => "")).status = 400 := by
  exact ⟨by decide, by decide⟩

/-- C3 (amended): only a missing (or empty) `repo` parameter yields the
user-visible 400 with an error body; a malformed or unsupported URL
(`InvalidRepo`) is collapsed — exactly like `RemoteUnavailable` — into the
generic 500 error response with no detail. -/
theorem handler_error_collapse (env envU : Env) (cache : Cache)
    (md5hex : String → String) (badRepo okRepo : String)
    (hbad : repo_parts badRepo.data = none) (hbne : badRepo ≠ "")
    (hok : repo_parts okRepo.data ≠ none) (hu : envU.remote = none)
    (hone : okRepo ≠ "") :
    ((get_stats_image none env cache md5hex).status = 400
      ∧ (get_stats_image none env cache md5hex).body
          = RespBody.errorJson "Не указан репозиторий")
    ∧ ((get_stats_image (some badRepo) env cache md5hex).status = 500
      ∧ (get_stats_image (some badRepo) env cache md5hex).body
          = RespBody.errorJson "Не удалось собрать статистику")
    ∧ (get_stats_image (some okRepo) envU cache md5hex).status = 500 := by
  refine ⟨⟨rfl, rfl⟩, ?_, ?_⟩
  · have h := get_stats_unsupported_no_network badRepo.data env cache none hbad
    unfold get_stats_image
    constructor <;> simp [hbne, h, statsTruthy]
  · have h := get_stats_remote_unavailable okRepo.data envU cache none hok hu
    unfold get_stats_image
    simp [hone, h, statsTruthy]

/-- Witness for the amended C3 at concrete URLs and environments. -/
theorem handler_error_collapse_witness :
    repo_parts ("http://example.com").data = none
    ∧ ("http://example.com" : String) ≠ ""
    ∧ repo_parts ("https://github.com/a/b").data ≠ none
    ∧ (Env.mk none "" []).remote = none
    ∧ ("https://github.com/a/b" : String) ≠ ""
    ∧ (((get_stats_image none (Env.mk (some "z") "" []) emptyCache (fun _ => "")).status = 400
        ∧ (get_stats_image none (Env.mk (some "z") "" []) emptyCache (fun _ => "")).body
            = RespBody.errorJson "Не указан репозиторий")
      ∧ ((get_stats_image (some "http://example.com") (Env.mk (some "z") "" [])
            emptyCache (fun _ => "")).status = 500
        ∧ (get_stats_image (some "http://example.com") (Env.mk (some "z") "" [])
            emptyCache (fun _ => "")).body
            = RespBody.errorJson "Не удалось собрать статистику")
      ∧ (get_stats_image (some "https://github.com/a/b") (Env.mk none "" [])
          emptyCache (fun _ => "")).status = 500) :=
  ⟨by decide, by decide, by decide, rfl, by decide,
   handler_error_collapse (Env.mk (some "z") "" []) (Env.mk none "" []) emptyCache
     (fun _ => "") "http://example.com" "https://github.com/a/b"
     (by decide) (by decide) (by decide) rfl (by decide)⟩

/-- C8: the HTTP contract of `GET /repo`: 400 with a JSON error body when
the `repo` parameter is absent; 500 with a JSON error body when the stats
value is falsy (`None` or empty); 200 with PNG bytes, content type
`image/png` and `Content-Disposition`
`inline; filename=stats_<first 8 hex digits of md5(url)>.png` on success. -/
theorem handler_http_contract (env : Env) (cache : Cache)
    (md5hex : String → String) (repo : String) (hne : repo ≠ "") :
    get_stats_image none env cache md5hex
      = ⟨400, "application/json", none, RespBody.errorJson "Не указан репозиторий"⟩
    ∧ (statsTruthy (get_stats repo.data env cache none).1 = false →
        get_stats_image (some repo) env cache md5hex
          = ⟨500, "application/json", none,
             RespBody.errorJson "Не удалось собрать статистику"⟩)
    ∧ (statsTruthy (get_stats repo.data env cache none).1 = true →
        get_stats_image (some repo) env cache md5hex
          = ⟨200, "image/png",
             some ("inline; filename=stats_" ++ (md5hex repo).take 8 ++ ".png"),
             RespBody.png⟩) := by
  refine ⟨rfl, ?_, ?_⟩ <;> intro h <;> unfold get_stats_image <;> simp [hne, h]

/-- Witness for C8 at a concrete URL. -/
theorem handler_http_contract_witness :
    ("https://github.com/a/b" : String) ≠ ""
    ∧ (get_stats_image none envOR emptyCache (fun _ => "0123456789abcdef")
        = ⟨400, "application/json", none, RespBody.errorJson "Не указан репозиторий"⟩
      ∧ (statsTruthy (get_stats ("https://github.com/a/b").data envOR emptyCache none).1 = false →
          get_stats_image (some "https://github.com/a/b") envOR emptyCache
              (fun _ => "0123456789abcdef")
            = ⟨500, "application/json", none,
               RespBody.errorJson "Не удалось собрать статистику"⟩)
      ∧ (statsTruthy (get_stats ("https://github.com/a/b").data envOR emptyCache none).1 = true →
          get_stats_image (some "https://github.com/a/b") envOR emptyCache
              (fun _ => "0123456789abcdef")
            = ⟨200, "image/png",
               some ("inline; filename=stats_"
                  ++ ((fun (_ : String) => "0123456789abcdef") "https://github.com/a/b").take 8
                  ++ ".png"),
               RespBody.png⟩)) :=
  ⟨by decide,
   handler_http_contract envOR emptyCache (fun _ => "0123456789abcdef")
     "https://github.com/a/b" (by decide)⟩

/-! ## Helper lemmas about `removeGit` and `containsGit` -/

/-- `".git"` starts a list exactly when the list starts `'.','g','i','t'`. -/
theorem gitPat_isPrefixOf_iff (c : Char) (rest : List Char) :
    gitPat.isPrefixOf (c :: rest) = true
      ↔ c = '.' ∧ ∃ r, rest = 'g' :: 'i' :: 't' :: r := by
  rw [List.isPrefixOf_iff_prefix]
  constructor
  · rintro ⟨t, ht⟩
    simp only [gitPat, List.cons_append, List.nil_append] at ht
    injection ht with h1 h2
    exact ⟨h1.symm, t, h2.symm⟩
  · rintro ⟨rfl, r, rfl⟩
    exact ⟨r, by simp [gitPat]⟩

/-- The guard of `removeGit`'s fall-through case, as a Bool equation. -/
theorem not_match_isPrefixOf_false (c : Char) (rest : List Char)
    (hne : ∀ r : List Char, c = '.' → rest = 'g' :: 'i' :: 't' :: r → False) :
    gitPat.isPrefixOf (c :: rest) = false := by
  by_contra hc
  rw [Bool.not_eq_false] at hc
  obtain ⟨rfl, r, rfl⟩ := (gitPat_isPrefixOf_iff _ _).mp hc
  exact hne r rfl rfl

/-- Fall-through equation of `removeGit`: no `".git"` at this position. -/
theorem removeGit_cons_ne (c : Char) (rest : List Char)
    (h : gitPat.isPrefixOf (c :: rest) = false) :
    removeGit (c :: rest) = c :: removeGit rest := by
  rw [removeGit.eq_def]
  split
  · rename_i rest1 heq
    injection heq with h1 h2
    subst h1
    rw [(gitPat_isPrefixOf_iff '.' rest).mpr ⟨rfl, rest1, h2⟩] at h
    exact absurd h (by simp)
  · rename_i x c2 rest2 hcon heq
    injection heq with h1 h2
    subst h1
    subst h2
    rfl
  · rename_i heq
    exact absurd heq (by simp)

/-- Fall-through equation of `containsGit`. -/
theorem containsGit_cons (c : Char) (rest : List Char) :
    containsGit (c :: rest) = (gitPat.isPrefixOf (c :: rest) || containsGit rest) := rfl

/-- Removing `".git"` never lengthens a string. -/
theorem removeGit_length_le (l : List Char) :
    (removeGit l).length ≤ l.length := by
  induction l using removeGit.induct with
  | case1 rest ih =>
    rw [show removeGit ('.' :: 'g' :: 'i' :: 't' :: rest) = removeGit rest from rfl]
    simp only [List.length_cons]
    omega
  | case2 c rest hne ih =>
    rw [removeGit_cons_ne c rest (not_match_isPrefixOf_false c rest hne)]
    simp only [List.length_cons]
    omega
  | case3 => simp [removeGit]

/-- If a string contains `".git"`, removing it strictly shortens it. -/
theorem removeGit_length_lt (l : List Char) (h : containsGit l = true) :
    (removeGit l).length < l.length := by
  induction l using removeGit.induct with
  | case1 rest ih =>
    rw [show removeGit ('.' :: 'g' :: 'i' :: 't' :: rest) = removeGit rest from rfl]
    have := removeGit_length_le rest
    simp only [List.length_cons]
    omega
  | case2 c rest hne ih =>
    have hp := not_match_isPrefixOf_false c rest hne
    rw [removeGit_cons_ne c rest hp]
    rw [containsGit_cons, hp, Bool.false_or] at h
    have := ih h
    simp only [List.length_cons]
    omega
  | case3 => simp [containsGit] at h

/-- A `".git"` occurrence survives extension on the right. -/
theorem containsGit_append_left (a b : List Char) (h : containsGit a = true) :
    containsGit (a ++ b) = true := by
  induction a with
  | nil => simp [containsGit] at h
  | cons c rest ih =>
    rw [List.cons_append, containsGit_cons]
    rw [containsGit_cons] at h
    simp only [Bool.or_eq_true] at h
    rcases h with hp | hc
    · rw [List.isPrefixOf_iff_prefix] at hp
      have : gitPat.isPrefixOf (c :: (rest ++ b)) = true := by
        rw [List.isPrefixOf_iff_prefix, ← List.cons_append]
        exact hp.trans (List.prefix_append _ _)
      rw [this, Bool.true_or]
    · rw [ih hc, Bool.or_true]

/-- A `".git"` occurrence survives extension on the left. -/
theorem containsGit_append_right (a b : List Char) (h : containsGit b = true) :
    containsGit (a ++ b) = true := by
  induction a with
  | nil => simpa using h
  | cons c rest ih => rw [List.cons_append, containsGit_cons, ih, Bool.or_true]

/-! ## Helper lemmas about `splitSlash` and `joinSlash` -/

/-- `str.split` never yields an empty list of segments. -/
theorem splitSlash_ne_nil (l : List Char) : splitSlash l ≠ [] := by
  cases l with
  | nil => simp [splitSlash]
  | cons c rest =>
    by_cases h : c = '/'
    · simp [splitSlash, h]
    · cases hs : splitSlash rest <;> simp [splitSlash, h, hs]

/-- Fall-through equation of `splitSlash` at a non-slash head. -/
theorem splitSlash_cons_ne (c : Char) (rest : List Char) (h : ¬ c = '/')
    (s : List Char) (ss : List (List Char)) (hs : splitSlash rest = s :: ss) :
    splitSlash (c :: rest) = (c :: s) :: ss := by
  simp [splitSlash, h, hs]

/-- Joining the segments of a split restores the original string. -/
theorem joinSlash_splitSlash (l : List Char) : joinSlash (splitSlash l) = l := by
  induction l with
  | nil => rfl
  | cons c rest ih =>
    by_cases h : c = '/'
    · subst h
      rw [show splitSlash ('/' :: rest) = [] :: splitSlash rest by simp [splitSlash]]
      cases hs : splitSlash rest with
      | nil => exact absurd hs (splitSlash_ne_nil rest)
      | cons s ss =>
        rw [hs] at ih
        rw [show joinSlash ([] :: s :: ss) = '/' :: joinSlash (s :: ss) from rfl, ih]
    · cases hs : splitSlash rest with
      | nil => exact absurd hs (splitSlash_ne_nil rest)
      | cons s ss =>
        rw [splitSlash_cons_ne c rest h s ss hs]
        rw [hs] at ih
        cases ss with
        | nil =>
          rw [show joinSlash [c :: s] = c :: s from rfl]
          rw [show joinSlash [s] = s from rfl] at ih
          rw [ih]
        | cons t ss2 =>
          rw [show joinSlash ((c :: s) :: t :: ss2) = (c :: s) ++ '/' :: joinSlash (t :: ss2)
            from rfl]
          rw [show joinSlash (s :: t :: ss2) = s ++ '/' :: joinSlash (t :: ss2) from rfl] at ih
          rw [← ih]
          simp

/-- A join of at least two segments is at least as long as the first two
segments plus their separator. -/
theorem joinSlash_length_ge (a b : List Char) (rest : List (List Char)) :
    a.length + 1 + b.length ≤ (joinSlash (a :: b :: rest)).length := by
  have hb : b.length ≤ (joinSlash (b :: rest)).length := by
    cases rest with
    | nil => simp [joinSlash]
    | cons t ss =>
      rw [show joinSlash (b :: t :: ss) = b ++ '/' :: joinSlash (t :: ss) from rfl]
      simp
  rw [show joinSlash (a :: b :: rest) = a ++ '/' :: joinSlash (b :: rest) from rfl]
  simp only [List.length_append, List.length_cons]
  omega

/-- `splitSlash` distributes over a separator. -/
theorem splitSlash_append (x y : List Char) :
    splitSlash (x ++ '/' :: y) = splitSlash x ++ splitSlash y := by
  induction x with
  | nil => simp [splitSlash]
  | cons c rest ih =>
    by_cases h : c = '/'
    · subst h
      rw [List.cons_append]
      rw [show splitSlash ('/' :: (rest ++ '/' :: y)) = [] :: splitSlash (rest ++ '/' :: y)
        by simp [splitSlash]]
      rw [show splitSlash ('/' :: rest) = [] :: splitSlash rest by simp [splitSlash]]
      rw [ih]
      rfl
    · cases hs : splitSlash rest with
      | nil => exact absurd hs (splitSlash_ne_nil rest)
      | cons s ss =>
        have hm : splitSlash (rest ++ '/' :: y) = s :: (ss ++ splitSlash y) := by
          rw [ih, hs, List.cons_append]
        rw [List.cons_append, splitSlash_cons_ne c _ h s (ss ++ splitSlash y) hm,
          splitSlash_cons_ne c rest h s ss hs]
        simp

/-- A string without slashes splits into itself as the only segment. -/
theorem splitSlash_no_slash (l : List Char) (h : ∀ c ∈ l, c ≠ '/') :
    splitSlash l = [l] := by
  induction l with
  | nil => rfl
  | cons c rest ih =>
    have hc : ¬ c = '/' := h c (by simp)
    have hr : splitSlash rest = [rest] := ih (fun x hx => h x (by simp [hx]))
    exact splitSlash_cons_ne c rest hc rest [] hr

/-! ## Helper lemmas about stripping and the parsed path -/

/-- `rstrip("/")` is the identity on a string not ending in `'/'`. -/
theorem rstripSlash_no_trailing (l : List Char) (e : Char) (he : e ≠ '/') :
    rstripSlash (l ++ [e]) = l ++ [e] := by
  unfold rstripSlash
  rw [List.reverse_append]
  simp only [List.reverse_cons, List.reverse_nil, List.nil_append, List.singleton_append]
  rw [List.dropWhile_cons_of_neg (by simp [he])]
  simp

/-- `getLastD` of a concatenation ending in a singleton. -/
theorem getLastD_concat_seg (A : List (List Char)) (x : List Char) :
    (A ++ [x]).getLastD [] = x := by
  simp [List.getLastD_eq_getLast?, List.getLast?_concat]

/-- For a clean owner/name pair, `urlparse(url).path.strip("/")` is exactly
`owner ++ "/" ++ name`. -/
theorem stripped_path (o n : List Char) (ho1 : o ≠ [])
    (ho2 : ∀ c ∈ o, c ≠ '/' ∧ c ≠ '?' ∧ c ≠ '#')
    (hn1 : n ≠ []) (hn2 : ∀ c ∈ n, c ≠ '/' ∧ c ≠ '?' ∧ c ≠ '#') :
    stripSlash (urlPath (mkUrl o n)) = o ++ '/' :: n := by
  have hdrop : (mkUrl o n).drop githubStart.length = o ++ '/' :: n := by
    unfold mkUrl
    rw [List.append_assoc]
    exact List.drop_left _ _
  have htake : (o ++ '/' :: n).takeWhile (fun c => ¬ (c = '?' ∨ c = '#'))
      = o ++ '/' :: n := by
    rw [List.takeWhile_eq_self_iff]
    intro x hx
    simp only [decide_eq_true_eq]
    rcases List.mem_append.mp hx with h | h
    · have := ho2 x h
      tauto
    · rcases List.mem_cons.mp h with rfl | h
      · simp
      · have := hn2 x h
        tauto
  obtain ⟨c, o2, rfl⟩ : ∃ c o2, o = c :: o2 := by
    cases o with
    | nil => exact absurd rfl ho1
    | cons c o2 => exact ⟨c, o2, rfl⟩
  have hc : ¬ c = '/' := (ho2 c (by simp)).1
  obtain ⟨n2, e, rfl⟩ := n.eq_nil_or_concat'.resolve_left hn1
  have he : e ≠ '/' := (hn2 e (by simp)).1
  unfold urlPath
  rw [hdrop, htake]
  unfold stripSlash lstripSlash
  rw [List.dropWhile_cons_of_pos (by simp)]
  rw [List.cons_append, List.dropWhile_cons_of_neg (by simp [hc])]
  have hshape : (c :: o2) ++ '/' :: (n2 ++ [e]) = ((c :: o2) ++ '/' :: n2) ++ [e] := by
    simp
  rw [← List.cons_append, hshape, rstripSlash_no_trailing _ e he]

/-! ## C10 -/

/-- C10: `.replace(".git", "")` erases every occurrence of `".git"`, not
only a trailing suffix: for a URL whose owner or name segment contains
`".git"` anywhere — in particular as an interior substring — the owner/name
pair `_repo_parts` returns differs from the actual URL path segments, and
whenever the name segment contains `".git"` the local clone directory name
differs from the actual name segment. -/
theorem dotgit_removed_everywhere (o n : List Char)
    (ho1 : o ≠ []) (hn1 : n ≠ [])
    (ho2 : ∀ c ∈ o, c ≠ '/' ∧ c ≠ '?' ∧ c ≠ '#')
    (hn2 : ∀ c ∈ n, c ≠ '/' ∧ c ≠ '?' ∧ c ≠ '#')
    (hg : containsGit o = true ∨ containsGit n = true) :
    repo_parts (mkUrl o n) ≠ some (o, n)
    ∧ (containsGit n = true → repoName (mkUrl o n) ≠ n) := by
  constructor
  · intro hcontra
    have hX : containsGit (o ++ '/' :: n) = true := by
      rcases hg with h | h
      · exact containsGit_append_left o ('/' :: n) h
      · have := containsGit_append_right (o ++ ['/']) n h
        simpa using this
    have hlt := removeGit_length_lt (o ++ '/' :: n) hX
    have hpre : githubStart.isPrefixOf (mkUrl o n) = true := by
      rw [List.isPrefixOf_iff_prefix]
      unfold mkUrl
      rw [List.append_assoc]
      exact List.prefix_append _ _
    have hstrip := stripped_path o n ho1 ho2 hn1 hn2
    unfold repo_parts at hcontra
    rw [if_pos hpre, hstrip] at hcontra
    cases hs : splitSlash (removeGit (o ++ '/' :: n)) with
    | nil => exact splitSlash_ne_nil _ hs
    | cons a tail =>
      cases tail with
      | nil =>
        rw [hs] at hcontra
        simp at hcontra
      | cons b rest2 =>
        rw [hs] at hcontra
        simp only [Option.some.injEq, Prod.mk.injEq] at hcontra
        obtain ⟨ha, hb⟩ := hcontra
        rw [ha, hb] at hs
        have hj := joinSlash_splitSlash (removeGit (o ++ '/' :: n))
        rw [hs] at hj
        have hlen := joinSlash_length_ge o n rest2
        rw [hj] at hlen
        simp only [List.length_append, List.length_cons] at hlt
        omega
  · intro hcn
    have hlt := removeGit_length_lt n hcn
    obtain ⟨n2, e, rfl⟩ := n.eq_nil_or_concat'.resolve_left hn1
    have he : e ≠ '/' := (hn2 e (by simp)).1
    have hgh : githubStart = ghHost ++ ['/'] := by decide
    have hr : rstripSlash (mkUrl o (n2 ++ [e])) = mkUrl o (n2 ++ [e]) := by
      have hshape : mkUrl o (n2 ++ [e]) = (githubStart ++ o ++ '/' :: n2) ++ [e] := by
        unfold mkUrl
        simp
      rw [hshape, rstripSlash_no_trailing _ e he, ← hshape]
    have hsplit : splitSlash (mkUrl o (n2 ++ [e]))
        = (splitSlash ghHost ++ [o]) ++ [n2 ++ [e]] := by
      have h1 : mkUrl o (n2 ++ [e]) = ghHost ++ '/' :: (o ++ '/' :: (n2 ++ [e])) := by
        unfold mkUrl
        rw [hgh]
        simp
      rw [h1, splitSlash_append ghHost (o ++ '/' :: (n2 ++ [e])),
        splitSlash_append o (n2 ++ [e])]
      rw [splitSlash_no_slash o (fun c hc => (ho2 c hc).1),
        splitSlash_no_slash (n2 ++ [e]) (fun c hc => (hn2 c hc).1)]
      simp
    unfold repoName
    rw [hr, hsplit, getLastD_concat_seg _ _]
    intro heq
    rw [heq] at hlt
    exact Nat.lt_irrefl _ hlt

/-- Witness for C10: owner `my.gitx` and name `lib.gitz`, each with an
interior `".git"`. -/
theorem dotgit_removed_everywhere_witness :
    ("my.gitx").data ≠ ([] : List Char)
    ∧ ("lib.gitz").data ≠ ([] : List Char)
    ∧ (∀ c ∈ ("my.gitx").data, c ≠ '/' ∧ c ≠ '?' ∧ c ≠ '#')
    ∧ (∀ c ∈ ("lib.gitz").data, c ≠ '/' ∧ c ≠ '?' ∧ c ≠ '#')
    ∧ (containsGit ("my.gitx").data = true ∨ containsGit ("lib.gitz").data = true)
    ∧ (repo_parts (mkUrl ("my.gitx").data ("lib.gitz").data)
          ≠ some (("my.gitx").data, ("lib.gitz").data)
      ∧ (containsGit ("lib.gitz").data = true →
          repoName (mkUrl ("my.gitx").data ("lib.gitz").data) ≠ ("lib.gitz").data)) :=
  ⟨by decide, by decide, by decide, by decide, by decide,
   dotgit_removed_everywhere ("my.gitx").data ("lib.gitz").data
     (by decide) (by decide) (by decide) (by decide) (by decide)⟩
